import Mathlib

/-
Shallow embedding of the pysiaalarm SIA DC-09 alarm server sources: the
frame lexer and content-matcher selection from
src/pysiaalarm/utils/regexes.py, and the TCP, Osborne-Hoffman (OH) and UDP
dispatch loops from src/pysiaalarm/aio/server.py.  Parts of the package
that the dispatch loops call but whose files are not among the sources
here (base_server.py, account.py, event.py, enums.py, the OH utility) are
modelled from the design document and marked as such in their doc
comments.
-/

set_option maxRecDepth 10000

/-- Wire data: Python bytes, decoded to characters for the regex layer. -/
abbrev Bytes := List Char

/- ## Frame lexer: MAIN_MATCHER of utils/regexes.py

The pattern, with re.X whitespace removed, is
crc 4 hex, length 4 hex, a double quote, an optional star, the
message-type alternation SIA-DCS / ADM-CID / NULL, a double quote, a
4-digit sequence, an optional receiver R plus 1..6 hex, a required line L
plus 1..6 hex, an optional hash, an optional account of 3..16 hex, a
literal opening square bracket, and a dot-star rest group.  It is embedded
as a backtracking parser with Python preference order: alternation tries
alternatives left to right, greedy quantifiers try the longest repetition
first, and a greedy optional group tries the consuming branch first. -/

/-- Character class of four hex digits used by the crc, length, receiver,
line and account groups. -/
def hexDigit (c : Char) : Bool :=
  (48 ≤ c.toNat && c.toNat ≤ 57) || (65 ≤ c.toNat && c.toNat ≤ 70) ||
    (97 ≤ c.toNat && c.toNat ≤ 102)

/-- Exactly n characters satisfying p: the capture and the remainder. -/
def takeExactly (p : Char → Bool) : Nat → List Char → Option (List Char × List Char)
  | 0, s => some ([], s)
  | _ + 1, [] => none
  | n + 1, c :: s =>
    if p c then (takeExactly p n s).map (fun q => (c :: q.1, q.2)) else none

/-- A single required literal character. -/
def expectChar (c : Char) : List Char → Option (List Char)
  | d :: s => if d = c then some s else none
  | [] => none

/-- A required literal string; returns the remainder. -/
def eatLit : List Char → List Char → Option (List Char)
  | [], s => some s
  | c :: p, d :: s => if d = c then eatLit p s else none
  | _ :: _, [] => none

/-- Backtracking choice: the first alternative, in preference order, on
which the continuation f succeeds. -/
def tryChoices {α β : Type} (f : List Char → Option β) :
    List (α × List Char) → Option (α × β)
  | [] => none
  | (a, s) :: t =>
    match f s with
    | some b => some (a, b)
    | none => tryChoices f t

/-- Greedy lengths m, m-1, ..., lo tried by a bounded quantifier. -/
def greedyLens (lo m : Nat) : List Nat :=
  if lo ≤ m then (List.range (m + 1 - lo)).map (fun i => m - i) else []

/-- Length of the leading hex run, bounding how much a hex quantifier can
consume. -/
def hexRunLen (s : List Char) : Nat := (s.takeWhile hexDigit).length

/-- Preference-ordered alternatives of the optional receiver group:
an R followed by one to six hex digits, or nothing. -/
def receiverChoices (s : List Char) : List (Option (List Char) × List Char) :=
  (match s with
   | 'R' :: s2 =>
     (greedyLens 1 (min (hexRunLen s2) 6)).map
       (fun k => (some ('R' :: s2.take k), s2.drop k))
   | _ => []) ++ [(none, s)]

/-- Preference-ordered alternatives of the required line group:
an L followed by one to six hex digits. -/
def lineChoices (s : List Char) : List (List Char × List Char) :=
  match s with
  | 'L' :: s2 =>
    (greedyLens 1 (min (hexRunLen s2) 6)).map
      (fun k => ('L' :: s2.take k, s2.drop k))
  | _ => []

/-- Preference-ordered alternatives of the optional account group:
three to sixteen hex digits, or nothing. -/
def accountChoices (s : List Char) : List (Option (List Char) × List Char) :=
  ((greedyLens 3 (min (hexRunLen s) 16)).map
    (fun k => (some (s.take k), s.drop k))) ++ [(none, s)]

/-- Preference-ordered alternatives of the optional encrypted star flag. -/
def encChoices (s : List Char) : List (Bool × List Char) :=
  (match s with
   | '*' :: s2 => [(true, s2)]
   | _ => []) ++ [(false, s)]

/-- Preference-ordered alternatives of the message-type alternation,
in source order SIA-DCS, ADM-CID, NULL. -/
def msgChoices (s : List Char) : List (List Char × List Char) :=
  ([("SIA-DCS".toList), ("ADM-CID".toList), ("NULL".toList)]).filterMap
    (fun m => (eatLit m s).map (fun r => (m, r)))

/-- Captures of the frame groups after the message type. -/
structure TailGroups where
  sequence : List Char
  receiver : Option (List Char)
  line : List Char
  account : Option (List Char)
  rest : List Char
deriving DecidableEq

/-- Literal opening bracket, then the greedy dot-star rest group; a dot
does not match a newline. -/
def afterBracket (s : List Char) : Option (List Char) :=
  match s with
  | '[' :: s2 => some (s2.takeWhile (fun c => c ≠ '\n'))
  | _ => none

/-- Optional account, then bracket and rest. -/
def parseAccountOn (s : List Char) : Option (Option (List Char) × List Char) :=
  tryChoices afterBracket (accountChoices s)

/-- Optional hash, then account, bracket and rest. -/
def parseHashOn (s : List Char) : Option (Option (List Char) × List Char) :=
  match s with
  | '#' :: s2 =>
    (match parseAccountOn s2 with
     | some r => some r
     | none => parseAccountOn s)
  | _ => parseAccountOn s

/-- Required line group, then hash, account, bracket and rest. -/
def parseLineOn (s : List Char) : Option (List Char × Option (List Char) × List Char) :=
  tryChoices parseHashOn (lineChoices s)

/-- Optional receiver group, then the remaining tail. -/
def parseReceiverOn (s : List Char) :
    Option (Option (List Char) × List Char × Option (List Char) × List Char) :=
  tryChoices parseLineOn (receiverChoices s)

/-- Four decimal sequence digits, then receiver, line, account and rest. -/
def parseSeqOn (s : List Char) : Option TailGroups :=
  (takeExactly Char.isDigit 4 s).bind
    (fun q => (parseReceiverOn q.2).map
      (fun t => ⟨q.1, t.1, t.2.1, t.2.2.1, t.2.2.2⟩))

/-- Closing quote after the message type, then the tail. -/
def parseQuoteSeqOn (s : List Char) : Option TailGroups :=
  (expectChar '"' s).bind parseSeqOn

/-- Message-type alternation, then quote and tail. -/
def parseMsgOn (s : List Char) : Option (List Char × TailGroups) :=
  tryChoices parseQuoteSeqOn (msgChoices s)

/-- Optional star flag, then message type and tail. -/
def parseEncOn (s : List Char) : Option (Bool × List Char × TailGroups) :=
  tryChoices parseMsgOn (encChoices s)

/-- Named captures of MAIN_MATCHER. -/
structure MainGroups where
  crc : List Char
  length : List Char
  encrypted_flag : Bool
  message_type : List Char
  sequence : List Char
  receiver : Option (List Char)
  line : List Char
  account : Option (List Char)
  rest : List Char
deriving DecidableEq

/-- Assembles the captures of one successful parse. -/
def buildGroups (crc ln : List Char) (t : Bool × List Char × TailGroups) : MainGroups :=
  ⟨crc, ln, t.1, t.2.1, t.2.2.sequence, t.2.2.receiver, t.2.2.line,
    t.2.2.account, t.2.2.rest⟩

/-- MAIN_MATCHER at a single start position: crc, length, quote, then the
flag, message type and tail. -/
def mainMatchAt (s : List Char) : Option MainGroups :=
  (takeExactly hexDigit 4 s).bind
    (fun c4 => (takeExactly hexDigit 4 c4.2).bind
      (fun l4 => (expectChar '"' l4.2).bind
        (fun r3 => (parseEncOn r3).map (buildGroups c4.1 l4.1))))

/-- MAIN_MATCHER applied to a whole line: the leftmost position at which it
matches, scanning left to right. -/
def mainSearch : List Char → Option MainGroups
  | [] => none
  | c :: t =>
    match mainMatchAt (c :: t) with
    | some g => some g
    | none => mainSearch t

/- ## Content-matcher selection of utils/regexes.py -/

/-- Modelled from the spec: the MessageTypes enum value that _get_matcher
compares against (enums.py is not among the sources); the MSGTYPE values
are the wire strings SIA-DCS, ADM-CID and NULL. -/
def MessageTypes.ADMCID : String := "ADM-CID"

/-- The four compiled content matchers of regexes.py, as labels. -/
inductive ContentMatcher
  | siaContent
  | admContent
  | encrSiaContent
  | encrAdmContent
deriving DecidableEq

/-- ENCR variant, the filler-tolerant pattern prepended to each cleartext
content matcher. -/
def encrVariant : ContentMatcher → ContentMatcher
  | ContentMatcher.siaContent => ContentMatcher.encrSiaContent
  | ContentMatcher.admContent => ContentMatcher.encrAdmContent
  | m => m

/-- Matcher selection of regexes.py: the ADM content matcher when the
message type equals ADM-CID, the SIA content matcher otherwise, with the
encrypted argument selecting the ENCR variant in both arms. -/
def _get_matcher (message_type : String) (encrypted : Bool) : ContentMatcher :=
  if message_type = MessageTypes.ADMCID then
    if encrypted then ContentMatcher.encrAdmContent else ContentMatcher.admContent
  else
    if encrypted then ContentMatcher.encrSiaContent else ContentMatcher.siaContent

/- ## Accounts, OH context, events and the pipeline -/

/-- Modelled from the spec: SIAAccount credentials (account.py is not among
the sources): a hex account id, an optional AES key, and a per-account OH
scrambled-key seed. -/
structure SIAAccount where
  account_id : String
  key : Option Bytes
  ohSeed : Bytes
deriving DecidableEq

/-- Modelled from the spec: the per-connection Osborne-Hoffman context (the
OH utility module is not among the sources).  It holds the seed the
scrambled key is derived from. -/
structure OsborneHoffman where
  seed : Bytes
deriving DecidableEq

/-- Modelled from the spec: the default context built by the no-argument
constructor call OsborneHoffman() that server.py uses; its seed is a fixed
16-byte blob independent of any account. -/
def OsborneHoffman.default : OsborneHoffman := ⟨("0123456789ABCDEF".toList)⟩

/-- Modelled from the spec: the 16-byte scrambled key is derived from the
context seed; the derivation is modelled as the seed itself. -/
def OsborneHoffman.get_scrambled_key (oh : OsborneHoffman) : Bytes := oh.seed

/-- Modelled from the spec: the OH wrap is a stream obfuscation keyed by
the scrambled key, modelled as a position-dependent XOR with the cycled
key; the same involution serves as decrypt_data and encrypt_data. -/
def OsborneHoffman.mix (oh : OsborneHoffman) (b : Bytes) : Bytes :=
  (b.enum).map
    (fun p =>
      Char.ofNat
        (p.2.toNat ^^^
          ((oh.get_scrambled_key).getD
            (p.1 % Nat.max (oh.get_scrambled_key).length 1) 'K').toNat))

/-- Modelled from the spec: OH unwrap of an inbound frame. -/
def OsborneHoffman.decrypt_data (oh : OsborneHoffman) (b : Bytes) : Bytes := oh.mix b

/-- Modelled from the spec: OH wrap of an outbound frame. -/
def OsborneHoffman.encrypt_data (oh : OsborneHoffman) (b : Bytes) : Bytes := oh.mix b

/-- Modelled from the spec: the SIAEvent produced by the pipeline, carrying
the synthesized wire response (event.py is not among the sources; only the
response bytes matter to the dispatch loops). -/
structure SIAEvent where
  response : Bytes
deriving DecidableEq

/-- Modelled from the spec: create_response synthesizes the wire reply of
the event; modelled as the stored response bytes. -/
def SIAEvent.create_response (e : SIAEvent) : Bytes := e.response

/-- Modelled from the spec: parse_and_check_event of base_server.py (not
among the sources).  Step 1 lexes the frame with MAIN_MATCHER and on
failure returns none with no reply; the later steps, account lookup,
decryption, content lexing, CRC, timestamp and response-type resolution,
are abstracted as a function of the lexed groups. -/
def parse_and_check_event (later : MainGroups → Option SIAEvent) (s : Bytes) :
    Option SIAEvent :=
  match mainSearch s with
  | none => none
  | some g => later g

/- ## Dispatch loops of aio/server.py as traces

Each loop is a pure function from the script of network read outcomes to
the list of observable actions it performs, in program order.  The
pipeline is a parameter, and the shutdown flag is sampled per loop
iteration via a function of the iteration index. -/

/-- One network read outcome: a connection reset, or a chunk of bytes; the
empty chunk stands for the EMPTY_BYTES and at_eof break condition. -/
inductive NetIn
  | reset
  | chunk (b : Bytes)
deriving DecidableEq

/-- Observable actions of the dispatch loops, in program order.  A
writeKey action is the raw scrambled-key keepalive write of the OH loop, a
writeResp action is a response write, sinkStart and sinkDone delimit an
awaited sink call, and spawnSink is a fire-and-forget sink task. -/
inductive Ev
  | read (b : Bytes)
  | writeKey (b : Bytes)
  | writeResp (e : SIAEvent) (b : Bytes)
  | drain
  | parse (b : Bytes) (r : Option SIAEvent)
  | sinkStart (e : SIAEvent)
  | sinkDone (e : SIAEvent)
  | spawnSink (e : SIAEvent)
  | sendto (b : Bytes)
  | close
deriving DecidableEq

/-- SIAServerTCP.handle_line: while the shutdown flag is unset, read; break
on reset, empty data or EOF; run the pipeline; on none continue with the
next read; otherwise write the response, drain, and await the
failure-catching sink wrapper; finally close the writer. -/
def SIAServerTCP.handle_line (pipe : Bytes → Option SIAEvent) (flags : Nat → Bool) :
    Nat → List NetIn → List Ev
  | _, [] => [Ev.close]
  | _, NetIn.reset :: _ => [Ev.close]
  | k, NetIn.chunk b :: rest =>
    if flags k then [Ev.close]
    else if b = [] then [Ev.read b, Ev.close]
    else
      Ev.read b :: Ev.parse b (pipe b) ::
        (match pipe b with
         | none => SIAServerTCP.handle_line pipe flags (k + 1) rest
         | some e =>
           Ev.writeResp e (e.create_response) :: Ev.drain ::
             Ev.sinkStart e :: Ev.sinkDone e ::
               SIAServerTCP.handle_line pipe flags (k + 1) rest)

/-- Loop body of SIAServerOH.handle_line: each iteration, while the flag is
unset, writes the scrambled key, reads, OH-decrypts, runs the pipeline,
and on an event writes the OH-encrypted response, drains, and awaits the
sink wrapper. -/
def SIAServerOH.loopRun (oh : OsborneHoffman) (key : Bytes)
    (pipe : Bytes → Option SIAEvent) (flags : Nat → Bool) :
    Nat → List NetIn → List Ev
  | k, [] => if flags k then [Ev.close] else [Ev.writeKey key, Ev.close]
  | k, NetIn.reset :: _ => if flags k then [Ev.close] else [Ev.writeKey key, Ev.close]
  | k, NetIn.chunk b :: rest =>
    if flags k then [Ev.close]
    else if b = [] then [Ev.writeKey key, Ev.read b, Ev.close]
    else
      Ev.writeKey key :: Ev.read b ::
        Ev.parse (oh.decrypt_data b) (pipe (oh.decrypt_data b)) ::
          (match pipe (oh.decrypt_data b) with
           | none => SIAServerOH.loopRun oh key pipe flags (k + 1) rest
           | some e =>
             Ev.writeResp e (oh.encrypt_data (e.create_response)) :: Ev.drain ::
               Ev.sinkStart e :: Ev.sinkDone e ::
                 SIAServerOH.loopRun oh key pipe flags (k + 1) rest)

/-- SIAServerOH.handle_line: instantiates a default OH context (line 90
passes no account data to the constructor), computes the scrambled key,
awaits a drain with nothing yet written, then runs the loop.  The accounts
map of the server is in scope but unused by the method. -/
def SIAServerOH.handle_line (accounts : List (String × SIAAccount))
    (pipe : Bytes → Option SIAEvent) (flags : Nat → Bool) (ins : List NetIn) :
    List Ev :=
  Ev.drain ::
    SIAServerOH.loopRun OsborneHoffman.default
      (OsborneHoffman.default.get_scrambled_key) pipe flags 0 ins

/-- SIAServerUDP.datagram_received: runs the pipeline on every datagram
(the shutdown flag is in scope but never consulted by the method), sends
the response to the source address only when connection_made has set the
transport, and schedules the sink task without awaiting it. -/
def SIAServerUDP.datagram_received (pipe : Bytes → Option SIAEvent)
    (shutdown_flag : Bool) (transportSet : Bool) (data : Bytes) : List Ev :=
  Ev.parse data (pipe data) ::
    (match pipe data with
     | none => []
     | some e =>
       (if transportSet then [Ev.sendto (e.create_response)] else []) ++
         [Ev.spawnSink e])

/- ## Trace observations -/

/-- Every sink invocation in the trace concerns an event whose response was
written to the transport earlier in the trace; the first argument
accumulates the events whose responses have been written so far. -/
def dispatchAfterResponse : List SIAEvent → List Ev → Prop
  | _, [] => True
  | w, Ev.writeResp e _ :: t => dispatchAfterResponse (e :: w) t
  | w, Ev.sinkStart e :: t => e ∈ w ∧ dispatchAfterResponse w t
  | w, Ev.spawnSink e :: t => e ∈ w ∧ dispatchAfterResponse w t
  | w, _ :: t => dispatchAfterResponse w t

/-- Sink calls are awaited inline: the trace has no fire-and-forget sink
task, and every sink start is immediately followed by its completion, so
nothing, in particular no read, happens between them. -/
def sinkAwaitedInline : List Ev → Prop
  | [] => True
  | Ev.spawnSink _ :: _ => False
  | Ev.sinkStart e :: Ev.sinkDone e2 :: t => e2 = e ∧ sinkAwaitedInline t
  | Ev.sinkStart _ :: _ => False
  | _ :: t => sinkAwaitedInline t

/-- OH cipher discipline: every parse acts on the OH decryption of the
bytes just read (each parse is immediately preceded by its read), and
every response write carries the OH encryption of the event response. -/
def ohCipherDiscipline (oh : OsborneHoffman) : List Ev → Prop
  | [] => True
  | Ev.read b :: Ev.parse inp _ :: t =>
    inp = oh.decrypt_data b ∧ ohCipherDiscipline oh t
  | Ev.parse _ _ :: _ => False
  | Ev.writeResp e bb :: t =>
    bb = oh.encrypt_data (e.create_response) ∧ ohCipherDiscipline oh t
  | _ :: t => ohCipherDiscipline oh t

/-- Number of scrambled-key writes preceding the first read of the trace. -/
def keyWritesBeforeFirstRead : List Ev → Nat
  | [] => 0
  | Ev.read _ :: _ => 0
  | Ev.writeKey _ :: t => keyWritesBeforeFirstRead t + 1
  | _ :: t => keyWritesBeforeFirstRead t

/-- Whether the trace contains a read. -/
def hasRead : List Ev → Bool
  | [] => false
  | Ev.read _ :: _ => true
  | _ :: t => hasRead t

/-- Payload of the first scrambled-key write of the trace, if any. -/
def firstKeyWrite : List Ev → Option Bytes
  | [] => none
  | Ev.writeKey b :: _ => some b
  | _ :: t => firstKeyWrite t

/-- Every scrambled-key write in the trace carries exactly k. -/
def allKeyWritesAre (k : Bytes) : List Ev → Prop
  | [] => True
  | Ev.writeKey b :: t => b = k ∧ allKeyWritesAre k t
  | _ :: t => allKeyWritesAre k t

/-- Index of the first occurrence of e in the trace, or the length of the
trace when e is absent. -/
def evIdx (e : Ev) : List Ev → Nat
  | [] => 0
  | x :: t => if x = e then 0 else evIdx e t + 1

/- ## Concrete frames from the design document scenarios -/

/-- Scenario frame of the design document: cleartext SIA-DCS, account AAA. -/
def siaFrame : Bytes :=
  ("5024004B\"SIA-DCS\"0003L0#AAA[|Nri1/BA501]_14:12:04,09-25-2019".toList)

/-- The same frame, well-formed except that its message type reads FOO. -/
def fooFrame : Bytes :=
  ("5024004B\"FOO\"0003L0#AAA[|Nri1/BA501]_14:12:04,09-25-2019".toList)

/- ## Lemmas about the lexer -/

/-- A successful backtracking choice picks its label from the alternative
list, and the continuation succeeds on that alternative's remainder. -/
theorem tryChoices_eq_some {α β : Type} (f : List Char → Option β)
    (l : List (α × List Char)) (p : α × β) (h : tryChoices f l = some p) :
    ∃ s, (p.1, s) ∈ l ∧ f s = some p.2 := by
  induction l with
  | nil => simp [tryChoices] at h
  | cons hd t ih =>
    obtain ⟨a, s⟩ := hd
    unfold tryChoices at h
    cases hf : f s with
    | some b =>
      rw [hf] at h
      simp only [] at h
      injection h with h2
      subst h2
      exact ⟨s, List.mem_cons_self _ _, hf⟩
    | none =>
      rw [hf] at h
      simp only [] at h
      obtain ⟨s2, hm, hf2⟩ := ih h
      exact ⟨s2, List.mem_cons_of_mem _ hm, hf2⟩

/-- Every alternative of the message-type alternation is labelled with one
of the three literals of the source pattern. -/
theorem msgChoices_mem (s mt r : List Char) (h : (mt, r) ∈ msgChoices s) :
    mt = ("SIA-DCS".toList) ∨ mt = ("ADM-CID".toList) ∨ mt = ("NULL".toList) := by
  unfold msgChoices at h
  rw [List.mem_filterMap] at h
  obtain ⟨m, hm, he⟩ := h
  rw [Option.map_eq_some'] at he
  obtain ⟨r2, _, he2⟩ := he
  cases he2
  simpa using hm

/-- A successful message-type parse captures one of the three literals. -/
theorem parseMsgOn_message_type (s : List Char) (p : List Char × TailGroups)
    (h : parseMsgOn s = some p) :
    p.1 = ("SIA-DCS".toList) ∨ p.1 = ("ADM-CID".toList) ∨ p.1 = ("NULL".toList) := by
  obtain ⟨s2, hm, _⟩ := tryChoices_eq_some _ _ _ h
  exact msgChoices_mem s p.1 s2 hm

/-- The flag-then-message parse also captures one of the three literals. -/
theorem parseEncOn_message_type (s : List Char) (t : Bool × List Char × TailGroups)
    (h : parseEncOn s = some t) :
    t.2.1 = ("SIA-DCS".toList) ∨ t.2.1 = ("ADM-CID".toList) ∨
      t.2.1 = ("NULL".toList) := by
  obtain ⟨s2, _, hf⟩ := tryChoices_eq_some _ _ _ h
  exact parseMsgOn_message_type s2 t.2 hf

/-- MAIN_MATCHER at any one position only ever captures SIA-DCS, ADM-CID
or NULL as the message type. -/
theorem mainMatchAt_message_type (s : List Char) (g : MainGroups)
    (h : mainMatchAt s = some g) :
    g.message_type = ("SIA-DCS".toList) ∨ g.message_type = ("ADM-CID".toList) ∨
      g.message_type = ("NULL".toList) := by
  unfold mainMatchAt at h
  rw [Option.bind_eq_some] at h
  obtain ⟨c4, _, h⟩ := h
  rw [Option.bind_eq_some] at h
  obtain ⟨l4, _, h⟩ := h
  rw [Option.bind_eq_some] at h
  obtain ⟨r3, _, h⟩ := h
  rw [Option.map_eq_some'] at h
  obtain ⟨t, ht, hg⟩ := h
  have h3 := parseEncOn_message_type r3 t ht
  subst hg
  simpa [buildGroups] using h3

/-- MAIN_MATCHER searched over a whole line only ever captures SIA-DCS,
ADM-CID or NULL as the message type. -/
theorem mainSearch_message_type (s : List Char) (g : MainGroups)
    (h : mainSearch s = some g) :
    g.message_type = ("SIA-DCS".toList) ∨ g.message_type = ("ADM-CID".toList) ∨
      g.message_type = ("NULL".toList) := by
  induction s with
  | nil => simp [mainSearch] at h
  | cons c t ih =>
    unfold mainSearch at h
    cases hm : mainMatchAt (c :: t) with
    | some g2 =>
      rw [hm] at h
      simp only [] at h
      injection h with h2
      subst h2
      exact mainMatchAt_message_type _ _ hm
    | none =>
      rw [hm] at h
      simp only [] at h
      exact ih h

/- ## Claim C1 -/

/-- C1 counterexample: the scenario frame made well-formed except for a FOO
message type is not matched by the frame lexer at any position, while its
SIA-DCS twin is; so no such frame reaches the DUH response path. -/
theorem C1_counterexample_foo_does_not_lex :
    mainSearch fooFrame = none ∧ (mainSearch siaFrame).isSome = true := by
  exact ⟨by decide, by decide⟩

/-- C1 (amended): the frame lexer never matches a frame whose message type
is FOO: every successful match captures SIA-DCS, ADM-CID or NULL; the
concrete FOO frame fails to lex while its SIA-DCS twin lexes; and, per
step 1 of the pipeline, the TCP loop emits no response and no sink
dispatch for it, proceeding to the next read. -/
theorem C1_amended_foo_frame_dropped :
    (∀ s g, mainSearch s = some g →
      g.message_type = ("SIA-DCS".toList) ∨ g.message_type = ("ADM-CID".toList) ∨
        g.message_type = ("NULL".toList)) ∧
    mainSearch fooFrame = none ∧
    (mainSearch siaFrame).isSome = true ∧
    (∀ later flags k rest, flags k = false →
      SIAServerTCP.handle_line (parse_and_check_event later) flags k
          (NetIn.chunk fooFrame :: rest) =
        Ev.read fooFrame :: Ev.parse fooFrame none ::
          SIAServerTCP.handle_line (parse_and_check_event later) flags (k + 1) rest) := by
  refine ⟨mainSearch_message_type, by decide, by decide, ?_⟩
  intro later flags k rest hf
  have hp : parse_and_check_event later fooFrame = none := by
    unfold parse_and_check_event
    rw [show mainSearch fooFrame = none by decide]
  simp [SIAServerTCP.handle_line, hf, hp,
    show fooFrame ≠ [] by decide]

/-- C1 witness: the amended theorem applied to the concrete FOO frame with
an always-clear shutdown flag and an empty remaining script. -/
theorem C1_witness :
    SIAServerTCP.handle_line (parse_and_check_event (fun _ => none))
        (fun _ => false) 0 [NetIn.chunk fooFrame] =
      [Ev.read fooFrame, Ev.parse fooFrame none, Ev.close] := by
  have h := C1_amended_foo_frame_dropped.2.2.2 (fun _ => none) (fun _ => false) 0 [] rfl
  rw [h]
  rfl

/- ## Claim C9 -/

/-- C9: _get_matcher returns an ADM matcher exactly when the message type
equals ADM-CID; every other value, NULL and unrecognized strings included,
selects the SIA matcher; and encrypted selects the filler-tolerant ENCR
variant of the matcher otherwise returned. -/
theorem C9_get_matcher_selection :
    ∀ (mt : String) (encrypted : Bool),
      ((_get_matcher mt encrypted = ContentMatcher.admContent ∨
        _get_matcher mt encrypted = ContentMatcher.encrAdmContent) ↔
          mt = MessageTypes.ADMCID) ∧
      (mt = MessageTypes.ADMCID →
        _get_matcher mt encrypted =
          if encrypted then ContentMatcher.encrAdmContent else ContentMatcher.admContent) ∧
      (mt ≠ MessageTypes.ADMCID →
        _get_matcher mt encrypted =
          if encrypted then ContentMatcher.encrSiaContent else ContentMatcher.siaContent) ∧
      _get_matcher mt true = encrVariant (_get_matcher mt false) := by
  intro mt encrypted
  by_cases h : mt = MessageTypes.ADMCID <;>
    cases encrypted <;>
      simp [_get_matcher, encrVariant, h]

/-- C9 witness: the selection theorem applied at NULL, at the unrecognized
string FOO, and at ADM-CID. -/
theorem C9_witness :
    _get_matcher ("NULL") false = ContentMatcher.siaContent ∧
    _get_matcher ("FOO") true = ContentMatcher.encrSiaContent ∧
    _get_matcher ("ADM-CID") true = ContentMatcher.encrAdmContent := by
  refine ⟨?_, ?_, ?_⟩
  · exact (C9_get_matcher_selection ("NULL") false).2.2.1 (by decide)
  · exact (C9_get_matcher_selection ("FOO") true).2.2.1 (by decide)
  · exact (C9_get_matcher_selection ("ADM-CID") true).2.1 rfl

/- ## Lemmas about the loop traces -/

/-- In every TCP trace, a sink invocation only concerns an event whose
response write already happened. -/
theorem tcp_dispatchAfterResponse (pipe : Bytes → Option SIAEvent)
    (flags : Nat → Bool) :
    ∀ (ins : List NetIn) (k : Nat) (w : List SIAEvent),
      dispatchAfterResponse w (SIAServerTCP.handle_line pipe flags k ins) := by
  intro ins
  induction ins with
  | nil => intro k w; simp [SIAServerTCP.handle_line, dispatchAfterResponse]
  | cons a rest ih =>
    intro k w
    cases a with
    | reset => simp [SIAServerTCP.handle_line, dispatchAfterResponse]
    | chunk b =>
      by_cases hfl : flags k
      · simp [SIAServerTCP.handle_line, hfl, dispatchAfterResponse]
      · by_cases hb : b = []
        · simp [SIAServerTCP.handle_line, hfl, hb, dispatchAfterResponse]
        · cases hp : pipe b with
          | none =>
            simp only [SIAServerTCP.handle_line, hfl, hb, hp, if_false,
              if_neg, dispatchAfterResponse]
            exact ih (k + 1) w
          | some e =>
            simp only [SIAServerTCP.handle_line, hfl, hb, hp, if_false,
              if_neg, dispatchAfterResponse]
            exact ⟨List.mem_cons_self _ _, ih (k + 1) (e :: w)⟩

/-- In every OH loop trace, a sink invocation only concerns an event whose
response write already happened. -/
theorem oh_dispatchAfterResponse (oh : OsborneHoffman) (key : Bytes)
    (pipe : Bytes → Option SIAEvent) (flags : Nat → Bool) :
    ∀ (ins : List NetIn) (k : Nat) (w : List SIAEvent),
      dispatchAfterResponse w (SIAServerOH.loopRun oh key pipe flags k ins) := by
  intro ins
  induction ins with
  | nil =>
    intro k w
    by_cases hfl : flags k <;>
      simp [SIAServerOH.loopRun, hfl, dispatchAfterResponse]
  | cons a rest ih =>
    intro k w
    cases a with
    | reset =>
      by_cases hfl : flags k <;>
        simp [SIAServerOH.loopRun, hfl, dispatchAfterResponse]
    | chunk b =>
      by_cases hfl : flags k
      · simp [SIAServerOH.loopRun, hfl, dispatchAfterResponse]
      · by_cases hb : b = []
        · simp [SIAServerOH.loopRun, hfl, hb, dispatchAfterResponse]
        · cases hp : pipe (oh.decrypt_data b) with
          | none =>
            simp only [SIAServerOH.loopRun, hfl, hb, hp, if_false,
              if_neg, dispatchAfterResponse]
            exact ih (k + 1) w
          | some e =>
            simp only [SIAServerOH.loopRun, hfl, hb, hp, if_false,
              if_neg, dispatchAfterResponse]
            exact ⟨List.mem_cons_self _ _, ih (k + 1) (e :: w)⟩

/-- Every scrambled-key write of the OH loop carries the key computed
before the loop. -/
theorem oh_loopRun_keyWrites (oh : OsborneHoffman) (key : Bytes)
    (pipe : Bytes → Option SIAEvent) (flags : Nat → Bool) :
    ∀ (ins : List NetIn) (k : Nat),
      allKeyWritesAre key (SIAServerOH.loopRun oh key pipe flags k ins) := by
  intro ins
  induction ins with
  | nil =>
    intro k
    by_cases hfl : flags k <;> simp [SIAServerOH.loopRun, hfl, allKeyWritesAre]
  | cons a rest ih =>
    intro k
    cases a with
    | reset =>
      by_cases hfl : flags k <;> simp [SIAServerOH.loopRun, hfl, allKeyWritesAre]
    | chunk b =>
      by_cases hfl : flags k
      · simp [SIAServerOH.loopRun, hfl, allKeyWritesAre]
      · by_cases hb : b = []
        · simp [SIAServerOH.loopRun, hfl, hb, allKeyWritesAre]
        · cases hp : pipe (oh.decrypt_data b) with
          | none =>
            simp only [SIAServerOH.loopRun, hfl, hb, hp, if_false,
              if_neg, allKeyWritesAre]
            exact ⟨trivial, ih (k + 1)⟩
          | some e =>
            simp only [SIAServerOH.loopRun, hfl, hb, hp, if_false,
              if_neg, allKeyWritesAre]
            exact ⟨trivial, ih (k + 1)⟩

/-- The OH loop decrypts exactly what it reads before parsing and encrypts
exactly the event response before writing. -/
theorem oh_loopRun_cipher (oh : OsborneHoffman) (key : Bytes)
    (pipe : Bytes → Option SIAEvent) (flags : Nat → Bool) :
    ∀ (ins : List NetIn) (k : Nat),
      ohCipherDiscipline oh (SIAServerOH.loopRun oh key pipe flags k ins) := by
  intro ins
  induction ins with
  | nil =>
    intro k
    by_cases hfl : flags k <;> simp [SIAServerOH.loopRun, hfl, ohCipherDiscipline]
  | cons a rest ih =>
    intro k
    cases a with
    | reset =>
      by_cases hfl : flags k <;> simp [SIAServerOH.loopRun, hfl, ohCipherDiscipline]
    | chunk b =>
      by_cases hfl : flags k
      · simp [SIAServerOH.loopRun, hfl, ohCipherDiscipline]
      · by_cases hb : b = []
        · simp [SIAServerOH.loopRun, hfl, hb, ohCipherDiscipline]
        · cases hp : pipe (oh.decrypt_data b) with
          | none =>
            simp only [SIAServerOH.loopRun, hfl, hb, hp, if_false,
              if_neg, ohCipherDiscipline]
            exact ⟨trivial, ih (k + 1)⟩
          | some e =>
            simp only [SIAServerOH.loopRun, hfl, hb, hp, if_false,
              if_neg, ohCipherDiscipline]
            exact ⟨trivial, trivial, ih (k + 1)⟩

/-- The TCP loop awaits the sink inline: no fire-and-forget sink task, and
every sink start is immediately followed by its completion. -/
theorem tcp_sinkAwaitedInline (pipe : Bytes → Option SIAEvent)
    (flags : Nat → Bool) :
    ∀ (ins : List NetIn) (k : Nat),
      sinkAwaitedInline (SIAServerTCP.handle_line pipe flags k ins) := by
  intro ins
  induction ins with
  | nil => intro k; simp [SIAServerTCP.handle_line, sinkAwaitedInline]
  | cons a rest ih =>
    intro k
    cases a with
    | reset => simp [SIAServerTCP.handle_line, sinkAwaitedInline]
    | chunk b =>
      by_cases hfl : flags k
      · simp [SIAServerTCP.handle_line, hfl, sinkAwaitedInline]
      · by_cases hb : b = []
        · simp [SIAServerTCP.handle_line, hfl, hb, sinkAwaitedInline]
        · cases hp : pipe b with
          | none =>
            simp only [SIAServerTCP.handle_line, hfl, hb, hp, if_false,
              if_neg, sinkAwaitedInline]
            exact ih (k + 1)
          | some e =>
            simp only [SIAServerTCP.handle_line, hfl, hb, hp, if_false,
              if_neg, sinkAwaitedInline]
            exact ⟨trivial, ih (k + 1)⟩

/- ## Claim C2 -/

/-- C2 counterexample: on a connection whose account carries a non-default
OH seed, the key the server sends is the default context's key and is not
derived from that account's seed. -/
theorem C2_counterexample_key_ignores_account :
    firstKeyWrite (SIAServerOH.handle_line
        [(("AAA"), ⟨("AAA"), none, ("FEDCBA9876543210".toList)⟩)]
        (fun _ => none) (fun _ => false) [NetIn.chunk (['x'])]) =
      some (OsborneHoffman.default.get_scrambled_key) ∧
    OsborneHoffman.default.get_scrambled_key ≠
      (OsborneHoffman.mk (("FEDCBA9876543210").toList)).get_scrambled_key := by
  exact ⟨by decide, by decide⟩

/-- C2 (amended): the OH handler instantiates a default OH context that
ignores the accounts map: with the pipeline held fixed, the trace is
identical for any two accounts maps, and every scrambled-key write carries
the default context's key. -/
theorem C2_amended_default_oh_context :
    (∀ (a1 a2 : List (String × SIAAccount)) pipe flags ins,
      SIAServerOH.handle_line a1 pipe flags ins =
        SIAServerOH.handle_line a2 pipe flags ins) ∧
    (∀ (accounts : List (String × SIAAccount)) pipe flags ins,
      allKeyWritesAre (OsborneHoffman.default.get_scrambled_key)
        (SIAServerOH.handle_line accounts pipe flags ins)) := by
  constructor
  · intro a1 a2 pipe flags ins
    rfl
  · intro accounts pipe flags ins
    show allKeyWritesAre _ (Ev.drain :: _)
    simp only [allKeyWritesAre]
    exact oh_loopRun_keyWrites _ _ pipe flags ins 0

/- ## Claim C3 -/

/-- C3 counterexample: on a connection delivering one chunk, exactly one
scrambled-key write precedes the first read, not two; the key is not
written at connect, only inside the loop. -/
theorem C3_counterexample_single_write_before_first_read :
    keyWritesBeforeFirstRead (SIAServerOH.handle_line [] (fun _ => none)
        (fun _ => false) [NetIn.chunk (['x'])]) = 1 ∧
    keyWritesBeforeFirstRead (SIAServerOH.handle_line [] (fun _ => none)
        (fun _ => false) [NetIn.chunk (['x'])]) ≠ 2 := by
  exact ⟨by decide, by decide⟩

/-- C3 (amended): the scrambled key is computed at connect but not written
then; the loop writes it before each read, so at most one key write
precedes the first read, and exactly one when a read occurs at all. -/
theorem C3_amended_first_write_is_in_loop :
    ∀ (accounts : List (String × SIAAccount)) pipe flags ins,
      keyWritesBeforeFirstRead (SIAServerOH.handle_line accounts pipe flags ins) ≤ 1 ∧
      (hasRead (SIAServerOH.handle_line accounts pipe flags ins) = true →
        keyWritesBeforeFirstRead (SIAServerOH.handle_line accounts pipe flags ins) = 1) := by
  intro accounts pipe flags ins
  show keyWritesBeforeFirstRead (Ev.drain :: _) ≤ 1 ∧ _
  cases ins with
  | nil =>
    by_cases hfl : flags 0 <;>
      simp [SIAServerOH.handle_line, SIAServerOH.loopRun, hfl,
        keyWritesBeforeFirstRead, hasRead]
  | cons a rest =>
    cases a with
    | reset =>
      by_cases hfl : flags 0 <;>
        simp [SIAServerOH.handle_line, SIAServerOH.loopRun, hfl,
          keyWritesBeforeFirstRead, hasRead]
    | chunk b =>
      by_cases hfl : flags 0
      · simp [SIAServerOH.handle_line, SIAServerOH.loopRun, hfl,
          keyWritesBeforeFirstRead, hasRead]
      · by_cases hb : b = []
        · simp [SIAServerOH.handle_line, SIAServerOH.loopRun, hfl, hb,
            keyWritesBeforeFirstRead, hasRead]
        · cases hp : pipe (OsborneHoffman.default.decrypt_data b) <;>
            simp [SIAServerOH.handle_line, SIAServerOH.loopRun, hfl, hb, hp,
              keyWritesBeforeFirstRead, hasRead]

/-- C3 witness: the amended theorem applied to a one-chunk connection on
which a read occurs. -/
theorem C3_witness :
    keyWritesBeforeFirstRead (SIAServerOH.handle_line [] (fun _ => none)
        (fun _ => false) [NetIn.chunk (['y'])]) = 1 := by
  exact (C3_amended_first_write_is_in_loop [] (fun _ => none) (fun _ => false)
    [NetIn.chunk (['y'])]).2 (by decide)

/- ## Claim C4 -/

/-- C4: in the OH dispatch loop, every inbound frame is decrypt_data of
the bytes read before it is parsed, and every outbound response frame is
encrypt_data of the event response before it is written; this holds for
the loop with any context and for handle_line with its default context. -/
theorem C4_oh_cipher_wrap :
    (∀ (oh : OsborneHoffman) key pipe flags k ins,
      ohCipherDiscipline oh (SIAServerOH.loopRun oh key pipe flags k ins)) ∧
    (∀ (accounts : List (String × SIAAccount)) pipe flags ins,
      ohCipherDiscipline OsborneHoffman.default
        (SIAServerOH.handle_line accounts pipe flags ins)) := by
  constructor
  · intro oh key pipe flags k ins
    exact oh_loopRun_cipher oh key pipe flags ins k
  · intro accounts pipe flags ins
    show ohCipherDiscipline _ (Ev.drain :: _)
    simp only [ohCipherDiscipline]
    exact oh_loopRun_cipher _ _ pipe flags ins 0

/- ## Claim C5 -/

/-- C5 counterexample: on a TCP connection delivering two parseable
chunks, the sink call for the first event completes strictly before the
second read appears in the trace: the next read does not begin before the
sink call has completed. -/
theorem C5_counterexample_sink_blocks_next_read :
    evIdx (Ev.sinkDone ⟨['a']⟩)
        (SIAServerTCP.handle_line (fun b => some ⟨b⟩) (fun _ => false) 0
          [NetIn.chunk (['a']), NetIn.chunk (['b'])]) <
      evIdx (Ev.read (['b']))
        (SIAServerTCP.handle_line (fun b => some ⟨b⟩) (fun _ => false) 0
          [NetIn.chunk (['a']), NetIn.chunk (['b'])]) ∧
    Ev.sinkDone ⟨['a']⟩ ∈
      SIAServerTCP.handle_line (fun b => some ⟨b⟩) (fun _ => false) 0
        [NetIn.chunk (['a']), NetIn.chunk (['b'])] ∧
    Ev.read (['b']) ∈
      SIAServerTCP.handle_line (fun b => some ⟨b⟩) (fun _ => false) 0
        [NetIn.chunk (['a']), NetIn.chunk (['b'])] := by
  exact ⟨by decide, by decide, by decide⟩

/-- C5 (amended): the TCP loop awaits the failure-catching sink wrapper
inline: there is no fire-and-forget sink task in its trace and every sink
start is immediately followed by its completion, so the next read begins
only after the sink call for the previous event has completed. -/
theorem C5_amended_tcp_sink_awaited :
    ∀ pipe flags k ins,
      sinkAwaitedInline (SIAServerTCP.handle_line pipe flags k ins) := by
  intro pipe flags k ins
  exact tcp_sinkAwaitedInline pipe flags ins k

/- ## Claim C6 -/

/-- C6: when the pipeline yields no event for a nonempty chunk, the TCP
loop writes nothing, invokes no sink, does not close, and proceeds
directly to the next read. -/
theorem C6_unparseable_bytes_dropped :
    ∀ pipe flags k b rest, flags k = false → b ≠ ([] : Bytes) → pipe b = none →
      SIAServerTCP.handle_line pipe flags k (NetIn.chunk b :: rest) =
        Ev.read b :: Ev.parse b none ::
          SIAServerTCP.handle_line pipe flags (k + 1) rest := by
  intro pipe flags k b rest hfl hb hp
  simp [SIAServerTCP.handle_line, hfl, hb, hp]

/-- C6 witness: the theorem applied to a concrete undecodable chunk. -/
theorem C6_witness :
    SIAServerTCP.handle_line (fun _ => none) (fun _ => false) 0
        [NetIn.chunk (['z'])] =
      [Ev.read (['z']), Ev.parse (['z']) none, Ev.close] := by
  have h := C6_unparseable_bytes_dropped (fun _ => none) (fun _ => false) 0
    (['z']) [] rfl (by decide) rfl
  rw [h]
  rfl

/- ## Claim C7 -/

/-- C7: on every transport the sink dispatch happens only after the
response was handed to the transport: the TCP and OH loops write the
response (and drain) before any sink invocation of that event, and the
UDP handler with a transport sends the response before scheduling the
sink task. -/
theorem C7_dispatch_after_response :
    (∀ pipe flags k ins,
      dispatchAfterResponse [] (SIAServerTCP.handle_line pipe flags k ins)) ∧
    (∀ (accounts : List (String × SIAAccount)) pipe flags ins,
      dispatchAfterResponse [] (SIAServerOH.handle_line accounts pipe flags ins)) ∧
    (∀ pipe sf d e, pipe d = some e →
      SIAServerUDP.datagram_received pipe sf true d =
        [Ev.parse d (some e), Ev.sendto (e.create_response), Ev.spawnSink e]) := by
  refine ⟨?_, ?_, ?_⟩
  · intro pipe flags k ins
    exact tcp_dispatchAfterResponse pipe flags ins k []
  · intro accounts pipe flags ins
    show dispatchAfterResponse [] (Ev.drain :: _)
    simp only [dispatchAfterResponse]
    exact oh_dispatchAfterResponse _ _ pipe flags ins 0 []
  · intro pipe sf d e hp
    simp [SIAServerUDP.datagram_received, hp]

/-- C7 witness: the UDP part applied to a concrete datagram with the
transport set. -/
theorem C7_witness :
    SIAServerUDP.datagram_received (fun b => some ⟨b⟩) false true (['q']) =
      [Ev.parse (['q']) (some ⟨['q']⟩), Ev.sendto (['q']), Ev.spawnSink ⟨['q']⟩] := by
  exact C7_dispatch_after_response.2.2 (fun b => some ⟨b⟩) false (['q']) ⟨['q']⟩ rfl

/- ## Claim C8 -/

/-- C8 counterexample: with the shutdown flag set, the UDP handler still
parses the datagram, still responds to the source address, and still
schedules the sink task; frames keep being parsed and responded to on the
UDP transport after shutdown. -/
theorem C8_counterexample_udp_ignores_flag :
    SIAServerUDP.datagram_received (fun b => some ⟨b⟩) true true (['x']) =
      [Ev.parse (['x']) (some ⟨['x']⟩), Ev.sendto (['x']), Ev.spawnSink ⟨['x']⟩] ∧
    Ev.sendto (['x']) ∈
      SIAServerUDP.datagram_received (fun b => some ⟨b⟩) true true (['x']) := by
  exact ⟨by decide, by decide⟩

/-- C8 (amended): a set shutdown flag makes the TCP and OH loops exit at
their next read boundary with no further parse or response, but the UDP
datagram handler never consults the flag: its behavior is identical with
the flag set and clear. -/
theorem C8_amended_shutdown_boundary :
    (∀ pipe flags k ins, flags k = true →
      SIAServerTCP.handle_line pipe flags k ins = [Ev.close]) ∧
    (∀ oh key pipe flags k ins, flags k = true →
      SIAServerOH.loopRun oh key pipe flags k ins = [Ev.close]) ∧
    (∀ pipe t d, SIAServerUDP.datagram_received pipe true t d =
      SIAServerUDP.datagram_received pipe false t d) := by
  refine ⟨?_, ?_, ?_⟩
  · intro pipe flags k ins hfl
    cases ins with
    | nil => rfl
    | cons a rest =>
      cases a with
      | reset => rfl
      | chunk b => simp [SIAServerTCP.handle_line, hfl]
  · intro oh key pipe flags k ins hfl
    cases ins with
    | nil => simp [SIAServerOH.loopRun, hfl]
    | cons a rest =>
      cases a with
      | reset => simp [SIAServerOH.loopRun, hfl]
      | chunk b => simp [SIAServerOH.loopRun, hfl]
  · intro pipe t d
    rfl

/-- C8 witness: the TCP part applied with the flag set on arrival of a
chunk: the loop exits without reading. -/
theorem C8_witness :
    SIAServerTCP.handle_line (fun _ => none) (fun _ => true) 0
        [NetIn.chunk (['x'])] = [Ev.close] := by
  exact C8_amended_shutdown_boundary.1 (fun _ => none) (fun _ => true) 0
    [NetIn.chunk (['x'])] rfl

/- ## Claim C10 -/

/-- C10: a datagram arriving before connection_made has set the transport
is still run through the pipeline; a produced event still gets its sink
task scheduled; and no response is sent to the source address. -/
theorem C10_udp_without_transport :
    (∀ pipe sf d e, pipe d = some e →
      SIAServerUDP.datagram_received pipe sf false d =
        [Ev.parse d (some e), Ev.spawnSink e]) ∧
    (∀ pipe sf d, pipe d = none →
      SIAServerUDP.datagram_received pipe sf false d = [Ev.parse d none]) := by
  constructor
  · intro pipe sf d e hp
    simp [SIAServerUDP.datagram_received, hp]
  · intro pipe sf d hp
    simp [SIAServerUDP.datagram_received, hp]

/-- C10 witness: the theorem applied to a concrete datagram with no
transport set. -/
theorem C10_witness :
    SIAServerUDP.datagram_received (fun b => some ⟨b⟩) false false (['w']) =
      [Ev.parse (['w']) (some ⟨['w']⟩), Ev.spawnSink ⟨['w']⟩] := by
  exact C10_udp_without_transport.1 (fun b => some ⟨b⟩) false (['w']) ⟨['w']⟩ rfl
